import Mathlib

/-!
# Verification of the voxel world-data core

A shallow embedding of the world-data core of a voxel sandbox: integer
coordinate math (`crates/core/src/math.rs`), the block registry and the
per-chunk palette (`crates/core/src/registry.rs`), chunks and the chunk
manager (`crates/world/src/chunk.rs`), and the terrain generator
(`crates/world/src/generation.rs`).

Modelling conventions:
* Rust `u16`/`u8`/`usize` values are `Nat`; `i32` values are `Int`. The i32
  operations that can overflow within the claims' domains - the
  componentwise `Sub` of `IVec3` and the squared-distance arithmetic of
  `unload_distant_chunks` - are translated with explicit two's-complement
  wrapping (`wrap32`, the release-profile semantics; a debug build would
  instead abort at exactly the inputs where `wrap32` is not the identity).
  The remaining translated arithmetic cannot overflow 32 bits on the values
  the operations are defined over, and the one narrowing cast,
  `len() as u8` in `Palette::add_block`, is translated explicitly as
  `% 256`.
* `HashMap` is an association list with overwrite-on-insert (`hmInsert`) and
  first-hit lookup (`hmGet`); only lookup behaviour is ever observed.
* A Rust operation that can terminate abnormally (palette overflow) returns
  `Option`, `none` standing for the abnormal exit; callers propagate it.
* The floating-point Perlin noise fields are opaque deterministic functions
  of their seed, per the design note in the spec ("treat as an opaque
  deterministic function `(seed, coordinate) -> scalar`"): a `NoiseModel`
  packages an integer-valued height-noise pipeline and a Bool-valued
  cave-noise test, and the generator derives both fields from the config
  seed exactly as `TerrainGenerator::new` does.
-/

/-- 3D integer vector for chunk and block coordinates (`IVec3` in math.rs). -/
structure IVec3 where
  x : Int
  y : Int
  z : Int
deriving DecidableEq, Repr

/-- Wrap an integer into the i32 range `[-2^31, 2^31)`: the two's-complement
value an overflowing Rust i32 operation produces in a release build (a debug
build aborts instead wherever `wrap32` is not the identity). -/
def wrap32 (v : Int) : Int :=
  (v + 2147483648) % 4294967296 - 2147483648

/-- Componentwise subtraction, as `impl Sub for IVec3`: each component is an
i32 subtraction, so it wraps on overflow. -/
instance : Sub IVec3 :=
  ⟨fun a b => ⟨wrap32 (a.x - b.x), wrap32 (a.y - b.y), wrap32 (a.z - b.z)⟩⟩

/-- Chunk width in blocks (`CHUNK_SIZE: i32 = 16`). -/
def CHUNK_SIZE : Int := 16

/-- Chunk height in blocks (`CHUNK_HEIGHT: i32 = 256`). -/
def CHUNK_HEIGHT : Int := 256

/-- Number of voxels in a chunk (`CHUNK_VOLUME: usize`), the `as usize` cast
rendered as `Int.toNat`. -/
def CHUNK_VOLUME : Nat := (CHUNK_SIZE * CHUNK_SIZE * CHUNK_HEIGHT).toNat

/-- Convert world coordinates to chunk coordinates. Rust `div_euclid` is
Euclidean division, which is exactly `Int`'s `/`. -/
def world_to_chunk (world_pos : IVec3) : IVec3 :=
  ⟨world_pos.x / CHUNK_SIZE, 0, world_pos.z / CHUNK_SIZE⟩

/-- Convert world coordinates to local block coordinates within a chunk.
Rust `rem_euclid` is the Euclidean remainder, `Int`'s `%`. -/
def world_to_local (world_pos : IVec3) : IVec3 :=
  ⟨world_pos.x % CHUNK_SIZE, world_pos.y, world_pos.z % CHUNK_SIZE⟩

/-- Convert chunk coordinates and local coordinates to world coordinates. -/
def chunk_local_to_world (chunk_pos local_pos : IVec3) : IVec3 :=
  ⟨chunk_pos.x * CHUNK_SIZE + local_pos.x,
   local_pos.y,
   chunk_pos.z * CHUNK_SIZE + local_pos.z⟩

/-- Convert 3D local coordinates to a 1D array index; `none` when a component
is out of range. The `as usize` cast is `Int.toNat` (the guarded value is
non-negative). -/
def local_to_index (local_pos : IVec3) : Option Nat :=
  if local_pos.x < 0 ∨ local_pos.x ≥ CHUNK_SIZE
      ∨ local_pos.y < 0 ∨ local_pos.y ≥ CHUNK_HEIGHT
      ∨ local_pos.z < 0 ∨ local_pos.z ≥ CHUNK_SIZE then
    none
  else
    some (local_pos.y * CHUNK_SIZE * CHUNK_SIZE
      + local_pos.z * CHUNK_SIZE + local_pos.x).toNat

/-- Convert a 1D array index back to 3D local coordinates; `none` when the
index is at least `CHUNK_VOLUME`. Rust `/` and `%` on `i32` truncate toward
zero, so they are `Int.tdiv` and `Int.tmod`. -/
def index_to_local (index : Nat) : Option IVec3 :=
  if index ≥ CHUNK_VOLUME then
    none
  else
    let idx : Int := index
    let y := idx.tdiv (CHUNK_SIZE * CHUNK_SIZE)
    let remainder := idx.tmod (CHUNK_SIZE * CHUNK_SIZE)
    let z := remainder.tdiv CHUNK_SIZE
    let x := remainder.tmod CHUNK_SIZE
    some ⟨x, y, z⟩

/-- Unique identifier for block types (`pub type BlockId = u16`). -/
abbrev BlockId := Nat

/-- Air block ID constant (`AIR_BLOCK: BlockId = 0`). -/
def AIR_BLOCK : BlockId := 0

/-- Basic classification of block behavior. -/
inductive BlockKind where
  | Air : BlockKind
  | Solid : BlockKind
deriving DecidableEq, Repr

/-- Lookup in the association-list model of `HashMap`: first entry with the
given key. -/
def hmGet {α β : Type} [DecidableEq α] (m : List (α × β)) (k : α) : Option β :=
  match m with
  | [] => none
  | (k1, v) :: rest => if k1 = k then some v else hmGet rest k

/-- Insert in the association-list model of `HashMap`: overwrites any entry
with the same key. -/
def hmInsert {α β : Type} [DecidableEq α] (m : List (α × β)) (k : α) (v : β) :
    List (α × β) :=
  (k, v) :: m.filter (fun kv => decide (kv.1 ≠ k))

/-- Block definition with properties (`BlockDef` in registry.rs). -/
structure BlockDef where
  id : BlockId
  name : String
  kind : BlockKind
  texture_id : Nat
deriving DecidableEq, Repr

/-- The built-in air definition (`BlockDef::air`). -/
def BlockDef.air : BlockDef := ⟨AIR_BLOCK, "air", BlockKind.Air, 0⟩

/-- The built-in stone definition (`BlockDef::stone`). -/
def BlockDef.stone : BlockDef := ⟨1, "stone", BlockKind.Solid, 1⟩

/-- The built-in dirt definition (`BlockDef::dirt`). -/
def BlockDef.dirt : BlockDef := ⟨2, "dirt", BlockKind.Solid, 2⟩

/-- The built-in grass definition (`BlockDef::grass`). -/
def BlockDef.grass : BlockDef := ⟨3, "grass", BlockKind.Solid, 3⟩

/-- The built-in wood definition (`BlockDef::wood`). -/
def BlockDef.wood : BlockDef := ⟨4, "wood", BlockKind.Solid, 4⟩

/-- Global block registry: id-to-definition and name-to-id maps. -/
structure BlockRegistry where
  blocks : List (BlockId × BlockDef)
  name_to_id : List (String × BlockId)
deriving DecidableEq, Repr

/-- Insert or overwrite a definition, keyed by both name and id
(`BlockRegistry::register`). -/
def BlockRegistry.register (r : BlockRegistry) (block : BlockDef) : BlockRegistry :=
  { blocks := hmInsert r.blocks block.id block
    name_to_id := hmInsert r.name_to_id block.name block.id }

/-- A fresh registry holding the five built-in defaults
(`BlockRegistry::new`). -/
def BlockRegistry.new : BlockRegistry :=
  (((((⟨[], []⟩ : BlockRegistry).register BlockDef.air).register
    BlockDef.stone).register BlockDef.dirt).register
    BlockDef.grass).register BlockDef.wood

/-- Lookup a definition by id (`BlockRegistry::get`). -/
def BlockRegistry.get (r : BlockRegistry) (id : BlockId) : Option BlockDef :=
  hmGet r.blocks id

/-- Lookup a definition by name (`BlockRegistry::get_by_name`). -/
def BlockRegistry.get_by_name (r : BlockRegistry) (name : String) : Option BlockDef :=
  (hmGet r.name_to_id name).bind (fun id => hmGet r.blocks id)

/-- Kind of an id, defaulting to Air for an unknown id
(`BlockRegistry::get_kind`). -/
def BlockRegistry.get_kind (r : BlockRegistry) (id : BlockId) : BlockKind :=
  ((hmGet r.blocks id).map (fun block => block.kind)).getD BlockKind.Air

/-- Palette for efficient chunk storage: `id_to_block` maps palette indices
to block IDs, `block_to_id` is the reverse map. -/
structure Palette where
  id_to_block : List BlockId
  block_to_id : List (BlockId × Nat)
deriving DecidableEq, Repr

/-- Add a block to the palette, returning its palette index and the updated
palette (`Palette::add_block`); `none` models the fatal palette-overflow
exit. The Rust `len() as u8` narrowing is `% 256`. -/
def Palette.add_block (p : Palette) (block_id : BlockId) : Option (Nat × Palette) :=
  match hmGet p.block_to_id block_id with
  | some palette_id => some (palette_id, p)
  | none =>
    let palette_id := p.id_to_block.length % 256
    if palette_id = 255 then
      none
    else
      some (palette_id,
        { id_to_block := p.id_to_block ++ [block_id]
          block_to_id := hmInsert p.block_to_id block_id palette_id })

/-- A fresh palette: air is always palette index 0 (`Palette::new`, which
starts empty and adds `AIR_BLOCK`; that addition cannot overflow). -/
def Palette.new : Palette :=
  match Palette.add_block ⟨[], []⟩ AIR_BLOCK with
  | some (_, p) => p
  | none => ⟨[], []⟩

/-- Get a block ID from a palette index; out-of-range defaults to air
(`Palette::get_block`). -/
def Palette.get_block (p : Palette) (palette_id : Nat) : BlockId :=
  (p.id_to_block[palette_id]?).getD AIR_BLOCK

/-- Get the palette index of a block ID (`Palette::get_palette_id`). -/
def Palette.get_palette_id (p : Palette) (block_id : BlockId) : Option Nat :=
  hmGet p.block_to_id block_id

/-- Number of unique blocks in the palette (`Palette::len`). -/
def Palette.len (p : Palette) : Nat :=
  p.id_to_block.length

/-- A chunk of voxel data with palette compression (`Chunk` in chunk.rs).
`voxels` stores one palette index per voxel. -/
structure Chunk where
  position : IVec3
  palette : Palette
  voxels : List Nat
  dirty : Bool
deriving DecidableEq, Repr

/-- Create a new empty chunk filled with air (`Chunk::new`). -/
def Chunk.new (position : IVec3) : Chunk :=
  ⟨position, Palette.new, List.replicate CHUNK_VOLUME 0, false⟩

/-- Get the block ID at local coordinates; out-of-bounds yields air
(`Chunk::get_block`). In-bounds the code indexes `voxels` directly; the
embedding reads with default 0, and the invariant theorems show the index is
always within `voxels`. -/
def Chunk.get_block (c : Chunk) (local_pos : IVec3) : BlockId :=
  match local_to_index local_pos with
  | some index => c.palette.get_block (c.voxels.getD index 0)
  | none => AIR_BLOCK

/-- Set the block ID at local coordinates (`Chunk::set_block`): out-of-bounds
is a silent no-op; in-bounds adds the id to the palette (which can overflow
fatally, the `none` case), stores the index and marks the chunk dirty. -/
def Chunk.set_block (c : Chunk) (local_pos : IVec3) (block_id : BlockId) :
    Option Chunk :=
  match local_to_index local_pos with
  | some index =>
    (c.palette.add_block block_id).map (fun pr =>
      { c with palette := pr.2, voxels := c.voxels.set index pr.1, dirty := true })
  | none => some c

/-- Fill the chunk with a single block type (`Chunk::fill`): reset the
palette, add the block, overwrite every voxel, mark dirty. -/
def Chunk.fill (c : Chunk) (block_id : BlockId) : Option Chunk :=
  (Palette.new.add_block block_id).map (fun pr =>
    { c with palette := pr.2
             voxels := List.replicate c.voxels.length pr.1
             dirty := true })

/-- Check whether the chunk is entirely air (`Chunk::is_empty`): inspects
only the palette. -/
def Chunk.is_empty (c : Chunk) : Bool :=
  c.palette.len == 1 && c.palette.get_block 0 == AIR_BLOCK

/-- Mark the chunk as saved (`Chunk::mark_clean`). -/
def Chunk.mark_clean (c : Chunk) : Chunk :=
  { c with dirty := false }

/-- Manages a collection of chunks keyed by chunk coordinate
(`ChunkManager`). -/
structure ChunkManager where
  chunks : List (IVec3 × Chunk)
deriving DecidableEq, Repr

/-- A fresh, empty manager (`ChunkManager::new`). -/
def ChunkManager.new : ChunkManager :=
  ⟨[]⟩

/-- Insert a chunk, keyed by its own position (`ChunkManager::insert_chunk`). -/
def ChunkManager.insert_chunk (m : ChunkManager) (chunk : Chunk) : ChunkManager :=
  ⟨hmInsert m.chunks chunk.position chunk⟩

/-- Get the chunk at the given chunk coordinates (`ChunkManager::get_chunk`). -/
def ChunkManager.get_chunk (m : ChunkManager) (chunk_pos : IVec3) : Option Chunk :=
  hmGet m.chunks chunk_pos

/-- Unload all chunks whose squared planar (x,z) distance from `center`
exceeds `max_distance` squared (`ChunkManager::unload_distant_chunks`,
a `retain` on the map). The radius square, the two coordinate squares and
their sum are i32 multiplications and additions, so each wraps on overflow
(as does the componentwise subtraction inside `-`). -/
def ChunkManager.unload_distant_chunks (m : ChunkManager) (center : IVec3)
    (max_distance : Int) : ChunkManager :=
  let max_distance_sq := wrap32 (max_distance * max_distance)
  ⟨m.chunks.filter (fun kv =>
    let diff := kv.1 - center
    let distance_sq := wrap32 (wrap32 (diff.x * diff.x) + wrap32 (diff.z * diff.z))
    decide (distance_sq ≤ max_distance_sq))⟩

/-- Terrain generator configuration (`TerrainConfig`). The four `f64` fields
(`height_scale`, `height_frequency`, `cave_frequency`, `cave_threshold`)
shape the floating-point noise pipelines and are absorbed into the opaque
`NoiseModel` functions; the integer fields are translated directly. -/
structure TerrainConfig where
  seed : Nat
  sea_level : Int
  max_height : Int
deriving DecidableEq, Repr

/-- Opaque deterministic model of the seeded Perlin noise pipelines, per the
design note of the spec. `perlin2 seed x z` stands for the already scaled
and truncated height sample `(Perlin(seed).get([x*hf, z*hf]) * hs) as i32`;
`perlin3 seed x y z` stands for the cave test
`Perlin(seed).get([x*cf, y*cf*0.5, z*cf]).abs() < ct`. -/
structure NoiseModel where
  perlin2 : Nat → Int → Int → Int
  perlin3 : Nat → Int → Int → Int → Bool

/-- Procedural terrain generator (`TerrainGenerator`): immutable config plus
the two seeded noise fields and a registry. -/
structure TerrainGenerator where
  config : TerrainConfig
  height_noise : Int → Int → Int
  cave_noise : Int → Int → Int → Bool
  registry : BlockRegistry

/-- Build a generator from a config (`TerrainGenerator::new`): the height
field is seeded with the config seed, the cave field with
`seed.wrapping_add(1)`, and the registry is freshly constructed. -/
def TerrainGenerator.new (nm : NoiseModel) (config : TerrainConfig) :
    TerrainGenerator :=
  { config := config
    height_noise := nm.perlin2 config.seed
    cave_noise := nm.perlin3 ((config.seed + 1) % 4294967296)
    registry := BlockRegistry.new }

/-- Rust `i32::clamp(lo, hi)`: lo when below, hi when above, else itself. -/
def rustClamp (v lo hi : Int) : Int :=
  if v < lo then lo else if v > hi then hi else v

/-- Terrain height at (x,z) (`TerrainGenerator::get_height`): sea level plus
the scaled height sample, clamped to `[0, max_height]`. -/
def TerrainGenerator.get_height (g : TerrainGenerator) (x z : Int) : Int :=
  rustClamp (g.config.sea_level + g.height_noise x z) 0 g.config.max_height

/-- Whether the position is carved as a cave (`TerrainGenerator::is_cave`):
never within 5 blocks of bedrock or of the configured max height, otherwise
decided by the cave noise field. -/
def TerrainGenerator.is_cave (g : TerrainGenerator) (x y z : Int) : Bool :=
  if y ≤ 5 ∨ y ≥ g.config.max_height - 5 then
    false
  else
    g.cave_noise x y z

/-- Block type for a world position (`TerrainGenerator::get_block_at`):
above the height map air, then caves, bedrock, surface grass, the dirt band,
and deep stone, in this order. Each branch resolves its block through the
registry by name; `none` models the `unwrap` on a failed name lookup. -/
def TerrainGenerator.get_block_at (g : TerrainGenerator) (world_pos : IVec3) :
    Option BlockId :=
  let height := g.get_height world_pos.x world_pos.z
  if world_pos.y > height then
    (g.registry.get_by_name "air").map (fun d => d.id)
  else if g.is_cave world_pos.x world_pos.y world_pos.z then
    (g.registry.get_by_name "air").map (fun d => d.id)
  else if world_pos.y ≤ 0 then
    (g.registry.get_by_name "stone").map (fun d => d.id)
  else if world_pos.y = height then
    (g.registry.get_by_name "grass").map (fun d => d.id)
  else if world_pos.y ≥ height - 3 then
    (g.registry.get_by_name "dirt").map (fun d => d.id)
  else
    (g.registry.get_by_name "stone").map (fun d => d.id)

/-- Generate a single chunk (`TerrainGenerator::generate_chunk`): start from
a fresh chunk, write `get_block_at` of the corresponding world position into
every voxel (x outer, then z, then y, as in the source), and mark the result
clean. Abnormal exits of `set_block` or of a registry lookup propagate. -/
def TerrainGenerator.generate_chunk (g : TerrainGenerator) (chunk_pos : IVec3) :
    Option Chunk :=
  let world_x_start := chunk_pos.x * CHUNK_SIZE
  let world_z_start := chunk_pos.z * CHUNK_SIZE
  match (List.range CHUNK_SIZE.toNat).foldlM (fun c lx =>
      (List.range CHUNK_SIZE.toNat).foldlM (fun c lz =>
        (List.range CHUNK_HEIGHT.toNat).foldlM (fun c ly =>
          (g.get_block_at ⟨world_x_start + (lx : Int), (ly : Int),
              world_z_start + (lz : Int)⟩).bind
            (fun block_id => c.set_block ⟨(lx : Int), (ly : Int), (lz : Int)⟩ block_id))
          c) c) (Chunk.new chunk_pos) with
  | some c => some c.mark_clean
  | none => none

/-- Well-formedness of a palette: at most 255 entries, no id twice, and the
two maps are mutually consistent (`block_to_id` points at the right slot of
`id_to_block`, and every stored id has a reverse entry). -/
def PaletteInv (p : Palette) : Prop :=
  p.id_to_block.length ≤ 255 ∧
  p.id_to_block.Nodup ∧
  (∀ block_id i, hmGet p.block_to_id block_id = some i →
    p.id_to_block[i]? = some block_id) ∧
  (∀ block_id, block_id ∈ p.id_to_block →
    (hmGet p.block_to_id block_id).isSome = true)

/-- Well-formedness of a chunk: the voxel array has exactly `CHUNK_VOLUME`
entries, every stored voxel is a valid palette index, and the palette is
well-formed. -/
def ChunkWF (c : Chunk) : Prop :=
  c.voxels.length = CHUNK_VOLUME ∧
  (∀ v ∈ c.voxels, v < c.palette.id_to_block.length) ∧
  PaletteInv c.palette

/-- Palette states reachable from `Palette::new` by `add_block` calls that
return normally. -/
inductive PaletteReachable : Palette → Prop where
  | new : PaletteReachable Palette.new
  | add (p p2 : Palette) (block_id : BlockId) (i : Nat) :
      PaletteReachable p → p.add_block block_id = some (i, p2) →
      PaletteReachable p2

/-- Chunk states reachable through the chunk API: fresh chunks, writes,
fills, generator output and clean-marking. -/
inductive ChunkReachable : Chunk → Prop where
  | new (position : IVec3) : ChunkReachable (Chunk.new position)
  | set (c c2 : Chunk) (local_pos : IVec3) (block_id : BlockId) :
      ChunkReachable c → c.set_block local_pos block_id = some c2 →
      ChunkReachable c2
  | fill (c c2 : Chunk) (block_id : BlockId) :
      ChunkReachable c → c.fill block_id = some c2 → ChunkReachable c2
  | generated (nm : NoiseModel) (config : TerrainConfig) (chunk_pos : IVec3)
      (c : Chunk) :
      (TerrainGenerator.new nm config).generate_chunk chunk_pos = some c →
      ChunkReachable c
  | cleaned (c : Chunk) : ChunkReachable c → ChunkReachable c.mark_clean

/-- Registry states reachable from `BlockRegistry::new` by arbitrary
`register` calls. -/
inductive RegistryReachable : BlockRegistry → Prop where
  | new : RegistryReachable BlockRegistry.new
  | step (r : BlockRegistry) (b : BlockDef) :
      RegistryReachable r → RegistryReachable (r.register b)

/-- A definition that does not overwrite id 0 with a non-Air kind. -/
def keepsAirZero (b : BlockDef) : Prop :=
  b.id = AIR_BLOCK → b.kind = BlockKind.Air

/-- Registry states reachable from `BlockRegistry::new` by `register` calls
none of which re-registers id 0 with a non-Air kind. -/
inductive RegistryReachableSafe : BlockRegistry → Prop where
  | new : RegistryReachableSafe BlockRegistry.new
  | step (r : BlockRegistry) (b : BlockDef) :
      RegistryReachableSafe r → keepsAirZero b →
      RegistryReachableSafe (r.register b)

/-- The chunk produced by writing block id 9 at local (5,10,7) into a fresh
chunk at the origin; local (5,10,7) linearizes to index 2677. -/
def c6Witness : Chunk :=
  ⟨⟨0, 0, 0⟩, ⟨[0, 9], [(9, 1), (0, 0)]⟩,
   (List.replicate CHUNK_VOLUME 0).set 2677 1, true⟩

/-- A manager holding fresh chunks at (1,0,2) and (10,0,10), the scenario of
the unloading claim. -/
def scenarioManager : ChunkManager :=
  (ChunkManager.new.insert_chunk (Chunk.new ⟨1, 0, 2⟩)).insert_chunk
    (Chunk.new ⟨10, 0, 10⟩)

theorem hmGet_nil {α β : Type} [DecidableEq α] (k : α) :
    hmGet ([] : List (α × β)) k = none := rfl

theorem hmGet_cons {α β : Type} [DecidableEq α] (k1 : α) (v : β)
    (rest : List (α × β)) (k : α) :
    hmGet ((k1, v) :: rest) k = if k1 = k then some v else hmGet rest k := rfl

theorem hmGet_filter_key {α β : Type} [DecidableEq α] (f : α → Bool)
    (m : List (α × β)) (k : α) :
    hmGet (m.filter (fun kv => f kv.1)) k = if f k then hmGet m k else none := by
  induction m with
  | nil => rw [List.filter_nil, hmGet_nil]; exact (ite_self _).symm
  | cons kv rest ih =>
    obtain ⟨k1, v⟩ := kv
    rw [List.filter_cons]
    by_cases hf : f k1
    · rw [if_pos (by simpa using hf), hmGet_cons, hmGet_cons]
      by_cases hk : k1 = k
      · subst hk
        rw [if_pos rfl, if_pos rfl, if_pos hf]
      · rw [if_neg hk, if_neg hk, ih]
    · rw [if_neg (by simpa using hf), ih, hmGet_cons]
      by_cases hk : k1 = k
      · subst hk
        rw [if_neg hf, if_neg hf]
      · rw [if_neg hk]

theorem hmGet_insert {α β : Type} [DecidableEq α] (m : List (α × β)) (k k2 : α)
    (v : β) : hmGet (hmInsert m k v) k2 = if k2 = k then some v else hmGet m k2 := by
  rw [hmInsert, hmGet_cons, hmGet_filter_key (fun a => decide (a ≠ k)) m k2]
  by_cases h : k2 = k
  · rw [if_pos h.symm, if_pos h]
  · rw [if_neg (fun he => h he.symm), if_neg h, if_pos (by simpa using h)]

theorem local_to_index_lt {l : IVec3} {i : Nat} (h : local_to_index l = some i) :
    i < CHUNK_VOLUME := by
  rw [local_to_index] at h
  split at h
  · exact absurd h (by simp)
  · rename_i hb
    rw [Option.some.injEq] at h
    subst h
    simp only [CHUNK_SIZE, CHUNK_HEIGHT] at hb ⊢
    simp only [CHUNK_VOLUME, CHUNK_SIZE, CHUNK_HEIGHT]
    omega

theorem local_to_index_none_iff : ∀ l : IVec3, local_to_index l = none ↔
    (l.x < 0 ∨ l.x ≥ CHUNK_SIZE ∨ l.y < 0 ∨ l.y ≥ CHUNK_HEIGHT
      ∨ l.z < 0 ∨ l.z ≥ CHUNK_SIZE) := by
  intro l
  rw [local_to_index]
  split
  · rename_i hb
    exact iff_of_true rfl hb
  · rename_i hb
    exact iff_of_false (by simp) hb

theorem CHUNK_VOLUME_eq : CHUNK_VOLUME = 65536 := rfl

theorem int_tmod_cs2 (m : Nat) : ((m : Int)).tmod (16 * 16) = ((m % 256 : Nat) : Int) := rfl

theorem int_tdiv_cs2 (m : Nat) : ((m : Int)).tdiv (16 * 16) = ((m / 256 : Nat) : Int) := rfl

theorem int_tmod_cs (m : Nat) : ((m : Int)).tmod 16 = ((m % 16 : Nat) : Int) := rfl

theorem int_tdiv_cs (m : Nat) : ((m : Int)).tdiv 16 = ((m / 16 : Nat) : Int) := rfl

theorem index_to_local_eq (i : Nat) (h : i < CHUNK_VOLUME) :
    index_to_local i = some ⟨((i % 256 % 16 : Nat) : Int), ((i / 256 : Nat) : Int),
      ((i % 256 / 16 : Nat) : Int)⟩ := by
  rw [index_to_local, if_neg (by omega)]
  simp only [CHUNK_SIZE, CHUNK_HEIGHT]
  rw [int_tmod_cs2, int_tdiv_cs2, int_tmod_cs, int_tdiv_cs]

theorem index_to_local_none_iff : ∀ i : Nat, index_to_local i = none ↔ i ≥ CHUNK_VOLUME := by
  intro i
  rw [index_to_local]
  split
  · rename_i hb
    exact iff_of_true rfl hb
  · rename_i hb
    exact iff_of_false (by simp) hb

theorem local_index_left_inverse : ∀ (l : IVec3) (i : Nat),
    local_to_index l = some i → index_to_local i = some l := by
  intro l i h
  rw [local_to_index] at h
  split at h
  · exact absurd h (by simp)
  · rename_i hb
    rw [Option.some.injEq] at h
    obtain ⟨x, y, z⟩ := l
    simp only [CHUNK_SIZE, CHUNK_HEIGHT, not_or, not_lt, ge_iff_le, not_le] at hb
    simp only [CHUNK_SIZE, CHUNK_HEIGHT] at h
    rw [index_to_local_eq i (by rw [CHUNK_VOLUME_eq]; omega)]
    rw [Option.some.injEq, IVec3.mk.injEq]
    refine ⟨?_, ?_, ?_⟩ <;> omega

theorem local_index_right_inverse : ∀ (i : Nat) (l : IVec3),
    index_to_local i = some l → local_to_index l = some i := by
  intro i l h
  by_cases hv : i < CHUNK_VOLUME
  · rw [index_to_local_eq i hv] at h
    rw [Option.some.injEq] at h
    subst h
    rw [CHUNK_VOLUME_eq] at hv
    rw [local_to_index]
    rw [if_neg (by simp only [CHUNK_SIZE, CHUNK_HEIGHT]; omega)]
    simp only [CHUNK_SIZE, CHUNK_HEIGHT]
    rw [Option.some.injEq]
    omega
  · rw [index_to_local, if_pos (by omega)] at h
    exact absurd h (by simp)

/-- C4: for every world coordinate w (all three components unrestricted,
negatives included), converting to a chunk coordinate and a local coordinate
and back yields w again:
`chunk_local_to_world (world_to_chunk w) (world_to_local w) = w`. -/
theorem c4_world_chunk_local_round_trip : ∀ w : IVec3,
    chunk_local_to_world (world_to_chunk w) (world_to_local w) = w := by
  intro w
  obtain ⟨x, y, z⟩ := w
  simp only [world_to_chunk, world_to_local, chunk_local_to_world, CHUNK_SIZE]
  rw [IVec3.mk.injEq]
  refine ⟨?_, rfl, ?_⟩ <;> omega

/-- C5: `local_to_index` and `index_to_local` are mutually inverse partial
bijections: `local_to_index` is `none` exactly when a component is negative
or at least its axis limit, `index_to_local` is `none` exactly when the
index is at least `CHUNK_VOLUME`, and on the valid domains the two compose
to the identity in both directions. -/
theorem c5_index_round_trip :
    (∀ l : IVec3, local_to_index l = none ↔
      (l.x < 0 ∨ l.x ≥ CHUNK_SIZE ∨ l.y < 0 ∨ l.y ≥ CHUNK_HEIGHT
        ∨ l.z < 0 ∨ l.z ≥ CHUNK_SIZE)) ∧
    (∀ i : Nat, index_to_local i = none ↔ i ≥ CHUNK_VOLUME) ∧
    (∀ (l : IVec3) (i : Nat), local_to_index l = some i →
      index_to_local i = some l) ∧
    (∀ (i : Nat) (l : IVec3), index_to_local i = some l →
      local_to_index l = some i) :=
  ⟨local_to_index_none_iff, index_to_local_none_iff,
   local_index_left_inverse, local_index_right_inverse⟩

/-- C1, counterexample to the claim as stated: the registry state reached
from `BlockRegistry::new` by the single call `register({id 0, Solid})` is
reachable by a sequence of register calls, yet `get_kind 0` on it is Solid,
not Air: insertion overwrites the prior definition of id 0, so BlockId 0
does not always resolve to the Air kind. -/
theorem c1_air_kind_counterexample :
    RegistryReachable (BlockRegistry.new.register ⟨0, "obsidian", BlockKind.Solid, 9⟩) ∧
    (BlockRegistry.new.register ⟨0, "obsidian", BlockKind.Solid, 9⟩).get_kind AIR_BLOCK
      = BlockKind.Solid ∧
    (BlockRegistry.new.register ⟨0, "obsidian", BlockKind.Solid, 9⟩).get_kind AIR_BLOCK
      ≠ BlockKind.Air :=
  ⟨RegistryReachable.step _ _ RegistryReachable.new, by decide, by decide⟩

/-- C1, amended: for every registry state reachable by register calls none
of which re-registers id 0 with a non-Air kind, `get_kind 0` returns the Air
kind; re-registering id 0 with a Solid definition instead overwrites the
kind, as the counterexample shows. -/
theorem c1_air_kind_amended : ∀ r : BlockRegistry, RegistryReachableSafe r →
    r.get_kind AIR_BLOCK = BlockKind.Air := by
  intro r hr
  induction hr with
  | new => decide
  | step r b hr hsafe ih =>
    rw [BlockRegistry.get_kind, BlockRegistry.register, hmGet_insert]
    by_cases hb : b.id = AIR_BLOCK
    · rw [if_pos hb.symm]
      exact hsafe hb
    · rw [if_neg (fun he => hb he.symm)]
      rw [BlockRegistry.get_kind] at ih
      exact ih

/-- C1, witness: the amended theorem applied to the freshly constructed
registry. -/
theorem c1_air_kind_amended_witness :
    BlockRegistry.new.get_kind AIR_BLOCK = BlockKind.Air :=
  c1_air_kind_amended BlockRegistry.new RegistryReachableSafe.new

theorem get_by_name_air : BlockRegistry.new.get_by_name "air" = some BlockDef.air := by decide

theorem get_by_name_stone : BlockRegistry.new.get_by_name "stone" = some BlockDef.stone := by decide

theorem get_by_name_dirt : BlockRegistry.new.get_by_name "dirt" = some BlockDef.dirt := by decide

theorem get_by_name_grass : BlockRegistry.new.get_by_name "grass" = some BlockDef.grass := by decide

/-- C2: for every generator (any noise model, any config) and every world
position p, `get_block_at` selects the block in exactly this priority
order, first match winning: above the height map air (id 0); in a cave air;
at `y ≤ 0` stone (id 1); at `y == height` grass (id 3); at
`y ≥ height - 3` dirt (id 2); otherwise stone. The name lookups of the
source resolve on the generator's fresh registry, so the call always
returns normally. -/
theorem c2_block_selection_priority : ∀ (nm : NoiseModel) (config : TerrainConfig)
    (p : IVec3),
    (TerrainGenerator.new nm config).get_block_at p =
      some (if p.y > (TerrainGenerator.new nm config).get_height p.x p.z then
          BlockDef.air.id
        else if (TerrainGenerator.new nm config).is_cave p.x p.y p.z then
          BlockDef.air.id
        else if p.y ≤ 0 then BlockDef.stone.id
        else if p.y = (TerrainGenerator.new nm config).get_height p.x p.z then
          BlockDef.grass.id
        else if p.y ≥ (TerrainGenerator.new nm config).get_height p.x p.z - 3 then
          BlockDef.dirt.id
        else BlockDef.stone.id) := by
  intro nm config p
  have hreg : (TerrainGenerator.new nm config).registry = BlockRegistry.new := rfl
  rw [TerrainGenerator.get_block_at, hreg]
  rw [get_by_name_air, get_by_name_stone, get_by_name_grass, get_by_name_dirt]
  split_ifs <;> rfl

/-- C3: two generators each constructed from identical configs (and the
same opaque noise pipelines - in the embedding the noise fields are pure
functions derived from the config seed alone, exactly as the seeded Perlin
constructors are) produce identical chunks for every chunk coordinate: same
position, same palette contents in the same order, same voxel byte array,
same dirty flag. In this pure embedding `TerrainGenerator.new` and
`generate_chunk` are functions of their arguments, so the two runs agree
definitionally once the configs coincide. -/
theorem c3_generation_deterministic : ∀ (nm : NoiseModel)
    (config1 config2 : TerrainConfig) (chunk_pos : IVec3),
    config1 = config2 →
    ((TerrainGenerator.new nm config1).generate_chunk chunk_pos).map
        (fun c => c.position) =
      ((TerrainGenerator.new nm config2).generate_chunk chunk_pos).map
        (fun c => c.position) ∧
    ((TerrainGenerator.new nm config1).generate_chunk chunk_pos).map
        (fun c => c.palette.id_to_block) =
      ((TerrainGenerator.new nm config2).generate_chunk chunk_pos).map
        (fun c => c.palette.id_to_block) ∧
    ((TerrainGenerator.new nm config1).generate_chunk chunk_pos).map
        (fun c => c.voxels) =
      ((TerrainGenerator.new nm config2).generate_chunk chunk_pos).map
        (fun c => c.voxels) ∧
    ((TerrainGenerator.new nm config1).generate_chunk chunk_pos).map
        (fun c => c.dirty) =
      ((TerrainGenerator.new nm config2).generate_chunk chunk_pos).map
        (fun c => c.dirty) := by
  intro nm config1 config2 chunk_pos h
  subst h
  exact ⟨rfl, rfl, rfl, rfl⟩

/-- C3, witness: the determinism theorem applied at a concrete noise model,
the default config values (seed 12345, sea level 64, max height 128) and
the origin chunk. -/
theorem c3_generation_deterministic_witness :
    ((TerrainGenerator.new ⟨fun _ _ _ => 0, fun _ _ _ _ => false⟩
        ⟨12345, 64, 128⟩).generate_chunk ⟨0, 0, 0⟩).map (fun c => c.voxels) =
      ((TerrainGenerator.new ⟨fun _ _ _ => 0, fun _ _ _ _ => false⟩
        ⟨12345, 64, 128⟩).generate_chunk ⟨0, 0, 0⟩).map (fun c => c.voxels) :=
  (c3_generation_deterministic ⟨fun _ _ _ => 0, fun _ _ _ _ => false⟩
    ⟨12345, 64, 128⟩ ⟨12345, 64, 128⟩ ⟨0, 0, 0⟩ rfl).2.2.1

theorem palette_new_eq : Palette.new = ⟨[0], [(0, 0)]⟩ := rfl

theorem palette_new_inv : PaletteInv Palette.new := by
  rw [palette_new_eq, PaletteInv]
  refine ⟨by simp, by simp, ?_, ?_⟩
  · intro block_id i h
    rw [hmGet_cons] at h
    by_cases hb : (0 : Nat) = block_id
    · rw [if_pos hb] at h
      rw [Option.some.injEq] at h
      subst h
      simp [hb.symm]
    · rw [if_neg hb] at h
      exact absurd h (by simp [hmGet_nil])
  · intro block_id hb
    simp only [List.mem_singleton] at hb
    subst hb
    rfl

theorem add_block_sound {p : Palette} {block_id : BlockId} {i : Nat} {p2 : Palette}
    (hinv : PaletteInv p) (h : p.add_block block_id = some (i, p2)) :
    i < p2.id_to_block.length ∧
    p.id_to_block.length ≤ p2.id_to_block.length ∧
    p2.id_to_block[i]? = some block_id ∧
    PaletteInv p2 := by
  obtain ⟨hlen, hnd, hfwd, hmem⟩ := hinv
  rw [Palette.add_block] at h
  cases hg : hmGet p.block_to_id block_id with
  | some pid =>
    rw [hg] at h
    rw [Option.some.injEq, Prod.mk.injEq] at h
    have hget := hfwd block_id pid hg
    have hlt : pid < p.id_to_block.length := by
      rcases List.getElem?_eq_some.mp hget with ⟨hw, _⟩
      exact hw
    obtain ⟨rfl, rfl⟩ := h
    exact ⟨hlt, le_refl _, hget, hlen, hnd, hfwd, hmem⟩
  | none =>
    rw [hg] at h
    simp only at h
    have hmod : p.id_to_block.length % 256 = p.id_to_block.length :=
      Nat.mod_eq_of_lt (by omega)
    rw [hmod] at h
    by_cases h255 : p.id_to_block.length = 255
    · rw [if_pos h255] at h
      exact absurd h (by simp)
    · rw [if_neg h255] at h
      rw [Option.some.injEq, Prod.mk.injEq] at h
      obtain ⟨rfl, rfl⟩ := h
      have hnotmem : block_id ∉ p.id_to_block := by
        intro hm
        have := hmem block_id hm
        rw [hg] at this
        exact absurd this (by simp)
      refine ⟨?_, ?_, ?_, ?_, ?_, ?_, ?_⟩
      · simp
      · simp
      · exact List.getElem?_concat_length _ _
      · simp only [List.length_append, List.length_singleton]
        omega
      · exact List.Nodup.append hnd (List.nodup_singleton _)
          (by simp [List.disjoint_singleton, hnotmem])
      · intro bid j hj
        rw [hmGet_insert] at hj
        by_cases hb : bid = block_id
        · rw [if_pos hb] at hj
          rw [Option.some.injEq] at hj
          subst hj
          subst hb
          exact List.getElem?_concat_length _ _
        · rw [if_neg hb] at hj
          have hold := hfwd bid j hj
          have hlt : j < p.id_to_block.length := by
            rcases List.getElem?_eq_some.mp hold with ⟨hw, _⟩
            exact hw
          show (p.id_to_block ++ [block_id])[j]? = some bid
          rw [List.getElem?_append, if_pos hlt]
          exact hold
      · intro bid hb
        rw [List.mem_append, List.mem_singleton] at hb
        rw [hmGet_insert]
        by_cases hbe : bid = block_id
        · rw [if_pos hbe]; rfl
        · rw [if_neg hbe]
          rcases hb with hb | hb
          · exact hmem bid hb
          · exact absurd hb hbe

theorem add_block_none_iff {p : Palette} {block_id : BlockId}
    (hinv : PaletteInv p) :
    p.add_block block_id = none ↔
      (p.id_to_block.length = 255 ∧ block_id ∉ p.id_to_block) := by
  obtain ⟨hlen, hnd, hfwd, hmem⟩ := hinv
  rw [Palette.add_block]
  cases hg : hmGet p.block_to_id block_id with
  | some pid =>
    have hget := hfwd block_id pid hg
    have hmm : block_id ∈ p.id_to_block := List.mem_iff_getElem?.mpr ⟨pid, hget⟩
    exact iff_of_false (by simp) (fun hc => hc.2 hmm)
  | none =>
    simp only
    have hmod : p.id_to_block.length % 256 = p.id_to_block.length :=
      Nat.mod_eq_of_lt (by omega)
    rw [hmod]
    have hnotmem : block_id ∉ p.id_to_block := by
      intro hm
      have := hmem block_id hm
      rw [hg] at this
      exact absurd this (by simp)
    by_cases h255 : p.id_to_block.length = 255
    · rw [if_pos h255]
      exact iff_of_true rfl ⟨h255, hnotmem⟩
    · rw [if_neg h255]
      exact iff_of_false (by simp) (fun hc => h255 hc.1)

theorem palette_reachable_inv : ∀ p : Palette, PaletteReachable p → PaletteInv p := by
  intro p hp
  induction hp with
  | new => exact palette_new_inv
  | add p p2 block_id i hp h ih => exact (add_block_sound ih h).2.2.2

/-- C7: on every reachable palette, `add_block` fails fatally (returns the
abnormal `none`) exactly when the palette already holds 255 distinct ids and
the argument is not among them - the 256th distinct insertion; whenever it
returns normally it returns a valid index into the resulting palette, and
the palette never holds more than 255 distinct ids. -/
theorem c7_palette_overflow : ∀ (p : Palette) (block_id : BlockId),
    PaletteReachable p →
    (p.add_block block_id = none ↔
      (p.id_to_block.length = 255 ∧ block_id ∉ p.id_to_block)) ∧
    (∀ (i : Nat) (p2 : Palette), p.add_block block_id = some (i, p2) →
      i < p2.id_to_block.length ∧ p2.id_to_block.length ≤ 255) := by
  intro p block_id hp
  have hinv := palette_reachable_inv p hp
  refine ⟨add_block_none_iff hinv, ?_⟩
  intro i p2 h
  obtain ⟨hlt, _, _, hinv2⟩ := add_block_sound hinv h
  exact ⟨hlt, hinv2.1⟩

/-- C7, witness: adding id 5 to a fresh palette returns index 1 of the
two-entry palette [0, 5], a valid index, with the size bound holding. -/
theorem c7_palette_overflow_witness :
    Palette.new.add_block 5 = some (1, ⟨[0, 5], [(5, 1), (0, 0)]⟩) ∧
    ((1 : Nat) < (⟨[0, 5], [(5, 1), (0, 0)]⟩ : Palette).id_to_block.length ∧
      (⟨[0, 5], [(5, 1), (0, 0)]⟩ : Palette).id_to_block.length ≤ 255) :=
  ⟨rfl, (c7_palette_overflow Palette.new 5 PaletteReachable.new).2 1
    ⟨[0, 5], [(5, 1), (0, 0)]⟩ rfl⟩

theorem palette_new_len : Palette.new.id_to_block.length = 1 := rfl

theorem chunk_new_wf (position : IVec3) : ChunkWF (Chunk.new position) := by
  refine ⟨by simp [Chunk.new], ?_, palette_new_inv⟩
  intro v hv
  rw [Chunk.new] at hv
  simp only at hv
  have := List.eq_of_mem_replicate hv
  subst this
  rw [Chunk.new]
  simp only [palette_new_len]
  omega

theorem set_block_wf {c c2 : Chunk} {lp : IVec3} {bid : BlockId}
    (hwf : ChunkWF c) (h : c.set_block lp bid = some c2) : ChunkWF c2 := by
  obtain ⟨hlen, hvox, hinv⟩ := hwf
  rw [Chunk.set_block] at h
  split at h
  · rename_i idx hix
    cases hab : c.palette.add_block bid with
    | none => rw [hab] at h; exact absurd h (by simp)
    | some pr =>
      obtain ⟨pid, p2⟩ := pr
      rw [hab, Option.map_some', Option.some.injEq] at h
      subst h
      obtain ⟨hplt, hple, _, hpinv⟩ := add_block_sound hinv hab
      refine ⟨by simpa using hlen, ?_, hpinv⟩
      intro v hv
      simp only at hv ⊢
      rcases List.mem_or_eq_of_mem_set hv with hm | he
      · exact lt_of_lt_of_le (hvox v hm) hple
      · subst he; exact hplt
  · rw [Option.some.injEq] at h
    subst h
    exact ⟨hlen, hvox, hinv⟩

theorem fill_wf {c c2 : Chunk} {bid : BlockId}
    (hwf : ChunkWF c) (h : c.fill bid = some c2) : ChunkWF c2 := by
  obtain ⟨hlen, _, _⟩ := hwf
  rw [Chunk.fill] at h
  cases hab : Palette.new.add_block bid with
  | none => rw [hab] at h; exact absurd h (by simp)
  | some pr =>
    obtain ⟨pid, p2⟩ := pr
    rw [hab, Option.map_some', Option.some.injEq] at h
    subst h
    obtain ⟨hplt, _, _, hpinv⟩ := add_block_sound palette_new_inv hab
    refine ⟨by simpa using hlen, ?_, hpinv⟩
    intro v hv
    simp only at hv ⊢
    have := List.eq_of_mem_replicate hv
    subst this
    exact hplt

theorem foldlM_option_inv {α β : Type} (P : α → Prop) (f : α → β → Option α)
    (hf : ∀ a b a2, P a → f a b = some a2 → P a2) :
    ∀ (l : List β) (a a2 : α), P a → l.foldlM f a = some a2 → P a2 := by
  intro l
  induction l with
  | nil =>
    intro a a2 hp h
    simp only [List.foldlM] at h
    exact Option.some_inj.mp h ▸ hp
  | cons b l ih =>
    intro a a2 hp h
    simp only [List.foldlM] at h
    cases hfa : f a b with
    | none => rw [hfa] at h; exact absurd h (by simp [Bind.bind, Option.bind])
    | some a1 =>
      rw [hfa] at h
      simp only [Bind.bind, Option.bind] at h
      exact ih a1 a2 (hf a b a1 hp hfa) h

theorem generate_chunk_wf (g : TerrainGenerator) (cp : IVec3) (c : Chunk)
    (h : g.generate_chunk cp = some c) : ChunkWF c := by
  rw [TerrainGenerator.generate_chunk] at h
  split at h
  · rename_i c0 hX
    rw [Option.some.injEq] at h
    subst h
    have hwf0 : ChunkWF c0 := by
      refine foldlM_option_inv ChunkWF _ ?_ _ _ _ (chunk_new_wf cp) hX
      intro a lx a2 ha hstep
      refine foldlM_option_inv ChunkWF _ ?_ _ _ _ ha hstep
      intro b lz b2 hb hstep2
      refine foldlM_option_inv ChunkWF _ ?_ _ _ _ hb hstep2
      intro d ly d2 hd hstep3
      cases hg : g.get_block_at ⟨cp.x * CHUNK_SIZE + (lx : Int), (ly : Int),
          cp.z * CHUNK_SIZE + (lz : Int)⟩ with
      | none => rw [hg] at hstep3; exact absurd hstep3 (by simp)
      | some bid =>
        rw [hg] at hstep3
        simp only [Option.bind] at hstep3
        exact set_block_wf hd hstep3
    exact hwf0
  · exact absurd h (by simp)

theorem chunk_reachable_wf : ∀ c : Chunk, ChunkReachable c → ChunkWF c := by
  intro c hc
  induction hc with
  | new position => exact chunk_new_wf position
  | set c c2 lp bid hc h ih => exact set_block_wf ih h
  | fill c c2 bid hc h ih => exact fill_wf ih h
  | generated nm config cp c h => exact generate_chunk_wf _ cp c h
  | cleaned c hc ih => exact ih

/-- C8: every chunk operation (`new`, `set_block`, `fill`, and generation
via `generate_chunk`, with `mark_clean` thrown in) preserves the invariant
that the voxel array has exactly `CHUNK_VOLUME` entries and that every
stored voxel byte is a valid palette index; consequently for in-bounds
coordinates the direct array index of `get_block` is within the voxel array
and the read voxel resolves inside the palette. -/
theorem c8_chunk_invariants :
    (∀ c : Chunk, ChunkReachable c → ChunkWF c) ∧
    (∀ (c : Chunk) (p : IVec3) (i : Nat), ChunkReachable c →
      local_to_index p = some i →
      i < c.voxels.length ∧ c.voxels.getD i 0 < c.palette.id_to_block.length) := by
  constructor
  · exact chunk_reachable_wf
  · intro c p i hc hix
    obtain ⟨hlen, hvox, _⟩ := chunk_reachable_wf c hc
    have hlt : i < c.voxels.length := by rw [hlen]; exact local_to_index_lt hix
    refine ⟨hlt, ?_⟩
    apply hvox
    rw [List.getD_eq_getElem?_getD, List.getElem?_eq_getElem hlt]
    exact List.getElem_mem hlt

/-- C6: on every reachable chunk, writing block id at an in-bounds local
position and reading it back returns that id, while at an out-of-bounds
position `set_block` returns the chunk entirely unchanged (same voxels,
palette and dirty flag - it is the same chunk) and `get_block` returns
air. -/
theorem c6_chunk_set_get : ∀ (c : Chunk) (p : IVec3) (block_id : BlockId),
    ChunkReachable c →
    (∀ (i : Nat) (c2 : Chunk), local_to_index p = some i →
      c.set_block p block_id = some c2 → c2.get_block p = block_id) ∧
    (local_to_index p = none →
      c.set_block p block_id = some c ∧ c.get_block p = AIR_BLOCK) := by
  intro c p block_id hc
  obtain ⟨hlen, hvox, hinv⟩ := chunk_reachable_wf c hc
  constructor
  · intro i c2 hix h
    rw [Chunk.set_block] at h
    split at h
    · rename_i idx hix2
      rw [hix] at hix2
      rw [Option.some.injEq] at hix2
      subst hix2
      cases hab : c.palette.add_block block_id with
      | none => rw [hab] at h; exact absurd h (by simp)
      | some pr =>
        obtain ⟨pid, p2⟩ := pr
        rw [hab, Option.map_some', Option.some.injEq] at h
        subst h
        obtain ⟨hplt, hple, hpget, hpinv⟩ := add_block_sound hinv hab
        rw [Chunk.get_block, hix]
        simp only
        have hltv : i < c.voxels.length := by rw [hlen]; exact local_to_index_lt hix
        rw [List.getD_eq_getElem?_getD, List.getElem?_set_self (by simpa using hltv)]
        simp only [Option.getD_some]
        rw [Palette.get_block, hpget]
        rfl
    · rename_i hix2
      rw [hix] at hix2
      exact absurd hix2 (by simp)
  · intro hix
    constructor
    · rw [Chunk.set_block]
      split
      · rename_i idx hix2
        rw [hix] at hix2
        exact absurd hix2 (by simp)
      · rfl
    · rw [Chunk.get_block, hix]

/-- C6, witness: writing id 9 at in-bounds (5,10,7) of a fresh chunk yields
the concrete chunk `c6Witness` and reading it back gives 9; at the
out-of-bounds (16,0,0) the write returns the chunk unchanged and the read
gives air. -/
theorem c6_chunk_set_get_witness :
    (Chunk.new ⟨0, 0, 0⟩).set_block ⟨5, 10, 7⟩ 9 = some c6Witness ∧
    c6Witness.get_block ⟨5, 10, 7⟩ = 9 ∧
    (Chunk.new ⟨0, 0, 0⟩).set_block ⟨16, 0, 0⟩ 9 = some (Chunk.new ⟨0, 0, 0⟩) ∧
    (Chunk.new ⟨0, 0, 0⟩).get_block ⟨16, 0, 0⟩ = AIR_BLOCK := by
  have h1 : (Chunk.new ⟨0, 0, 0⟩).set_block ⟨5, 10, 7⟩ 9 = some c6Witness := rfl
  have hoob := (c6_chunk_set_get (Chunk.new ⟨0, 0, 0⟩) ⟨16, 0, 0⟩ 9
    (ChunkReachable.new ⟨0, 0, 0⟩)).2 (by decide)
  exact ⟨h1, (c6_chunk_set_get (Chunk.new ⟨0, 0, 0⟩) ⟨5, 10, 7⟩ 9
    (ChunkReachable.new ⟨0, 0, 0⟩)).1 2677 c6Witness (by decide) h1,
    hoob.1, hoob.2⟩

theorem ivec3_sub_x (a b : IVec3) : (a - b).x = wrap32 (a.x - b.x) := rfl

theorem ivec3_sub_z (a b : IVec3) : (a - b).z = wrap32 (a.z - b.z) := rfl

theorem wrap32_eq_self {v : Int} (h1 : -2147483648 ≤ v) (h2 : v ≤ 2147483647) :
    wrap32 v = v := by
  rw [wrap32]
  omega

theorem mul_self_le_bound {a b : Int} (h1 : -b ≤ a) (h2 : a ≤ b) :
    a * a ≤ b * b := by
  rcases le_or_lt 0 a with ha | ha
  · exact mul_self_le_mul_self ha h2
  · have hn : a * a = (-a) * (-a) := by ring
    rw [hn]
    exact mul_self_le_mul_self (by omega) (by omega)

theorem unload_get_chunk_bounded (m : ChunkManager) (center : IVec3)
    (max_distance : Int) (pos : IVec3)
    (hx : (pos.x - center.x).natAbs ≤ 32767)
    (hz : (pos.z - center.z).natAbs ≤ 32767)
    (hr : max_distance.natAbs ≤ 46340) :
    (m.unload_distant_chunks center max_distance).get_chunk pos =
      if (pos.x - center.x) * (pos.x - center.x)
          + (pos.z - center.z) * (pos.z - center.z)
          ≤ max_distance * max_distance then
        m.get_chunk pos
      else none := by
  have hx1 : -32767 ≤ pos.x - center.x := by omega
  have hx2 : pos.x - center.x ≤ 32767 := by omega
  have hz1 : -32767 ≤ pos.z - center.z := by omega
  have hz2 : pos.z - center.z ≤ 32767 := by omega
  have hr1 : -46340 ≤ max_distance := by omega
  have hr2 : max_distance ≤ 46340 := by omega
  have hxx : (pos.x - center.x) * (pos.x - center.x) ≤ 32767 * 32767 :=
    mul_self_le_bound hx1 hx2
  have hzz : (pos.z - center.z) * (pos.z - center.z) ≤ 32767 * 32767 :=
    mul_self_le_bound hz1 hz2
  have hrr : max_distance * max_distance ≤ 46340 * 46340 :=
    mul_self_le_bound hr1 hr2
  have hxx0 : 0 ≤ (pos.x - center.x) * (pos.x - center.x) := mul_self_nonneg _
  have hzz0 : 0 ≤ (pos.z - center.z) * (pos.z - center.z) := mul_self_nonneg _
  have hrr0 : 0 ≤ max_distance * max_distance := mul_self_nonneg _
  have wx : wrap32 (pos.x - center.x) = pos.x - center.x :=
    wrap32_eq_self (by omega) (by omega)
  have wz : wrap32 (pos.z - center.z) = pos.z - center.z :=
    wrap32_eq_self (by omega) (by omega)
  have wxx : wrap32 ((pos.x - center.x) * (pos.x - center.x))
      = (pos.x - center.x) * (pos.x - center.x) :=
    wrap32_eq_self (by linarith) (by linarith)
  have wzz : wrap32 ((pos.z - center.z) * (pos.z - center.z))
      = (pos.z - center.z) * (pos.z - center.z) :=
    wrap32_eq_self (by linarith) (by linarith)
  have wsum : wrap32 ((pos.x - center.x) * (pos.x - center.x)
      + (pos.z - center.z) * (pos.z - center.z))
      = (pos.x - center.x) * (pos.x - center.x)
        + (pos.z - center.z) * (pos.z - center.z) :=
    wrap32_eq_self (by linarith) (by linarith)
  have wrr : wrap32 (max_distance * max_distance)
      = max_distance * max_distance :=
    wrap32_eq_self (by linarith) (by linarith)
  simp only [ChunkManager.unload_distant_chunks, ChunkManager.get_chunk]
  have h := hmGet_filter_key
    (fun a => decide (wrap32 (wrap32 ((a - center).x * (a - center).x)
      + wrap32 ((a - center).z * (a - center).z))
      ≤ wrap32 (max_distance * max_distance))) m.chunks pos
  simp only at h
  rw [h]
  rw [ivec3_sub_x, ivec3_sub_z, wx, wz, wxx, wzz, wsum, wrr]
  by_cases hc : (pos.x - center.x) * (pos.x - center.x)
      + (pos.z - center.z) * (pos.z - center.z) ≤ max_distance * max_distance
  · rw [if_pos (decide_eq_true hc), if_pos hc]
  · rw [if_neg (by simpa using hc), if_neg hc]

/-- C9, counterexample to the claim as stated: the i32 squared-distance
arithmetic wraps on overflow, so the exact-distance characterization fails
inside the claimed domain. A manager holding a chunk at (65536,0,0) - a
legitimate i32 chunk coordinate - unloaded around the origin with radius 0
keeps that chunk: its squared planar distance 65536*65536 exceeds 0*0, so
the claim says it is removed, but the release-profile i32 computation wraps
65536*65536 to 0 <= 0 and retains it (a debug build would abort instead). -/
theorem c9_unload_counterexample :
    ((ChunkManager.new.insert_chunk (Chunk.new ⟨65536, 0, 0⟩)).unload_distant_chunks
        ⟨0, 0, 0⟩ 0).get_chunk ⟨65536, 0, 0⟩ = some (Chunk.new ⟨65536, 0, 0⟩) ∧
    ((ChunkManager.new.insert_chunk (Chunk.new ⟨65536, 0, 0⟩)).unload_distant_chunks
        ⟨0, 0, 0⟩ 0).get_chunk ⟨65536, 0, 0⟩ ≠ none ∧
    ((65536 : Int) - 0) * (65536 - 0) + ((0 : Int) - 0) * (0 - 0) > 0 * 0 :=
  ⟨rfl, by decide, by decide⟩

/-- C9, amended: whenever the planar differences and the radius are small
enough that the i32 squared-distance arithmetic cannot overflow (|dx| and
|dz| at most 32767, |max_radius| at most 46340), `unload_distant_chunks`
removes exactly those chunks whose squared planar distance (x and z only, y
ignored) from the center exceeds the radius squared and leaves every other
chunk present and unchanged - the lookup after unloading is the original
lookup inside the radius and `none` outside. On overflowing inputs the
release i32 arithmetic wraps instead, as the counterexample shows. In
particular, on a manager holding chunks at (1,0,2) and (10,0,10), unloading
around the origin with radius 5 keeps (1,0,2) intact and removes
(10,0,10). -/
theorem c9_unload_distant_chunks_amended :
    (∀ (m : ChunkManager) (center : IVec3) (max_distance : Int) (pos : IVec3),
      (pos.x - center.x).natAbs ≤ 32767 →
      (pos.z - center.z).natAbs ≤ 32767 →
      max_distance.natAbs ≤ 46340 →
      (m.unload_distant_chunks center max_distance).get_chunk pos =
        if (pos.x - center.x) * (pos.x - center.x)
            + (pos.z - center.z) * (pos.z - center.z)
            ≤ max_distance * max_distance then
          m.get_chunk pos
        else none) ∧
    (scenarioManager.unload_distant_chunks ⟨0, 0, 0⟩ 5).get_chunk ⟨1, 0, 2⟩
        = some (Chunk.new ⟨1, 0, 2⟩) ∧
    (scenarioManager.unload_distant_chunks ⟨0, 0, 0⟩ 5).get_chunk ⟨10, 0, 10⟩
        = none :=
  ⟨unload_get_chunk_bounded, rfl, rfl⟩

/-- C9, witness: the bounded characterization applied concretely - the far
chunk of the scenario manager satisfies the no-overflow bounds and the
lookup after unloading matches the exact-distance test. -/
theorem c9_unload_distant_chunks_witness :
    (scenarioManager.unload_distant_chunks ⟨0, 0, 0⟩ 5).get_chunk ⟨10, 0, 10⟩ =
      (if ((10 : Int) - 0) * (10 - 0) + ((10 : Int) - 0) * (10 - 0) ≤ 5 * 5 then
        scenarioManager.get_chunk ⟨10, 0, 10⟩
      else none) :=
  c9_unload_distant_chunks_amended.1 scenarioManager ⟨0, 0, 0⟩ 5 ⟨10, 0, 10⟩
    (by decide) (by decide) (by decide)

/-- C10: a reachable chunk state exists in which every read returns air yet
`is_empty` reports false: write a stone-like id 1 at (5,10,7) into a fresh
chunk, write air back over it; the palette keeps the stale entry for id 1
(it is append-only), `is_empty` inspects only the palette, so the all-air
chunk is reported non-empty. -/
theorem c10_stale_palette_not_empty : ∃ c1 c2 : Chunk,
    (Chunk.new ⟨0, 0, 0⟩).set_block ⟨5, 10, 7⟩ 1 = some c1 ∧
    c1.set_block ⟨5, 10, 7⟩ AIR_BLOCK = some c2 ∧
    (∀ q : IVec3, c2.get_block q = AIR_BLOCK) ∧
    c2.is_empty = false := by
  refine ⟨⟨⟨0, 0, 0⟩, ⟨[0, 1], [(1, 1), (0, 0)]⟩,
      (List.replicate CHUNK_VOLUME 0).set 2677 1, true⟩,
    ⟨⟨0, 0, 0⟩, ⟨[0, 1], [(1, 1), (0, 0)]⟩,
      ((List.replicate CHUNK_VOLUME 0).set 2677 1).set 2677 0, true⟩,
    rfl, rfl, ?_, rfl⟩
  intro q
  rw [Chunk.get_block]
  cases hix : local_to_index q with
  | none => rfl
  | some i =>
    simp only
    rw [List.set_set]
    have hz : ((List.replicate CHUNK_VOLUME (0 : Nat)).set 2677 0).getD i 0 = 0 := by
      have hr : (List.replicate CHUNK_VOLUME (0 : Nat)).set 2677 0
          = List.replicate CHUNK_VOLUME 0 := by simp
      rw [hr, List.getD_eq_getElem?_getD, List.getElem?_replicate]
      split <;> rfl
    rw [hz]
    rfl
